import Mathlib

/-!
Verification of the Atlantis command-execution core against its source.

The development shallowly embeds the parts of the code that the claims
concern:

* the BoltDB lock backend (src/server/events/locking/boltdb/boltdb.go):
  the locks bucket is modelled as an association list from string keys to
  ProjectLock values (BoltDB buckets are key-value maps with unique keys;
  JSON serialization is treated as the identity since every value stored
  was produced by marshalling a ProjectLock),
* the apply executor (ApplyExecutor.Execute / ApplyExecutor.apply),
* the plan step runner command builder (PlanStepRunner.buildPlanCmd),
* the commit status aggregation (DefaultCommitStatusUpdater.UpdateProjectResult
  together with ProjectResult.Status),
* the lock admin HTTP handler (LocksController.DeleteLock).

External collaborators (terraform, the VCS client, the working directory,
DeleteLockCommand) appear as explicit parameters describing their outcome,
exactly where the code consults them.
-/

instance {ε α : Type} [DecidableEq ε] [DecidableEq α] : DecidableEq (Except ε α) :=
  fun x y =>
    match x, y with
    | .ok a, .ok b =>
      if h : a = b then .isTrue (by rw [h]) else .isFalse (fun hh => h (by injection hh))
    | .error a, .error b =>
      if h : a = b then .isTrue (by rw [h]) else .isFalse (fun hh => h (by injection hh))
    | .ok _, .error _ => .isFalse (fun hh => Except.noConfusion hh)
    | .error _, .ok _ => .isFalse (fun hh => Except.noConfusion hh)

/- ===== Data model (server/events/models) ===== -/

/-- models.Repo, restricted to the fields the claims touch.  The Go zero
value (used by the BaseRepo presence check in LocksController.DeleteLock)
is `emptyRepo`. -/
structure Repo where
  fullName : String
  owner : String
  name : String
  hostname : String
  deriving DecidableEq

/-- The Go zero value models.Repo\x7b\x7d. -/
def emptyRepo : Repo := ⟨"", "", "", ""⟩

/-- models.User. -/
structure User where
  username : String
  deriving DecidableEq

/-- models.PullRequest, restricted to the fields the claims touch. -/
structure PullRequest where
  num : Int
  url : String
  author : String
  baseRepo : Repo
  deriving DecidableEq

/-- models.Project: a repository full name plus a path inside the repo. -/
structure Project where
  repoFullName : String
  path : String
  deriving DecidableEq

/-- models.ProjectLock.  Time is opaque for the claims and modelled as a
natural number. -/
structure ProjectLock where
  project : Project
  workspace : String
  pull : PullRequest
  user : User
  time : Nat
  deriving DecidableEq

/- ===== The BoltDB locks bucket ===== -/

/-- The runLocks bucket of atlantis.db: an association list from the
string lock key to the stored lock.  BoltDB keeps at most one value per
key; the well-formedness predicate below captures that. -/
abbrev LockStore := List (String × ProjectLock)

/-- bucket.Get: the value stored at key k, if any. -/
def bucketGet : LockStore → String → Option ProjectLock
  | [], _ => none
  | kv :: rest, k => if kv.1 == k then some kv.2 else bucketGet rest k

/-- bucket.Put: store v at key k, replacing any previous value at k. -/
def bucketPut (s : LockStore) (k : String) (v : ProjectLock) : LockStore :=
  match s with
  | [] => [(k, v)]
  | kv :: rest => if kv.1 == k then (k, v) :: rest else kv :: bucketPut rest k v

/-- bucket.Delete: remove the value stored at key k, if any. -/
def bucketDelete (s : LockStore) (k : String) : LockStore :=
  s.filter (fun kv => kv.1 != k)

/-- BoltLocker.lockKey: repoFullName, project path and workspace joined
with "/" and no escaping. -/
def lockKey (p : Project) (workspace : String) : String :=
  p.repoFullName ++ "/" ++ p.path ++ "/" ++ workspace

/-- bytes.HasPrefix on the underlying byte strings, modelled on the
character lists (both sides are valid UTF-8, where byte prefixes and
character prefixes coincide). -/
def hasPrefixStr (s pre : String) : Bool :=
  pre.data.isPrefixOf s.data

/-- The outcome of BoltLocker.TryLock: the acquired flag, the lock
returned to the caller, and the store after the transaction. -/
structure TryLockOutcome where
  acquired : Bool
  currLock : ProjectLock
  store : LockStore
  deriving DecidableEq

/-- BoltLocker.TryLock: inside one write transaction, read the value at
the key of the new lock; if absent store the new lock and report it as
acquired, otherwise leave the store unchanged and report the current
holder. -/
def tryLock (s : LockStore) (newLock : ProjectLock) : TryLockOutcome :=
  let key := lockKey newLock.project newLock.workspace
  match bucketGet s key with
  | none => ⟨true, newLock, bucketPut s key newLock⟩
  | some curr => ⟨false, curr, s⟩

/-- BoltLocker.Unlock: read the lock stored at the key of (p, workspace),
delete that key, and return the prior lock (if any) with the new store. -/
def unlock (s : LockStore) (p : Project) (workspace : String) :
    Option ProjectLock × LockStore :=
  let key := lockKey p workspace
  (bucketGet s key, bucketDelete s key)

/-- BoltLocker.GetLock: the lock stored at the key of (p, workspace).
(The code also normalises the stored time to the local zone, which does
not affect the opaque time model.) -/
def getLock (s : LockStore) (p : Project) (workspace : String) : Option ProjectLock :=
  bucketGet s (lockKey p workspace)

/-- BoltLocker.List: all stored locks, in bucket order. -/
def listLocks (s : LockStore) : List ProjectLock :=
  s.map (fun kv => kv.2)

/-- BoltLocker.UnlockByPull: a cursor scan seeded at repoFullName that
visits, in the sorted key space of the bucket, exactly the keys having
repoFullName as a byte prefix; locks whose pull number matches are
collected, then each collected lock is deleted through Unlock using the
key recomputed from its own project and workspace. -/
def unlockByPull (s : LockStore) (repoFullName : String) (pullNum : Int) :
    List ProjectLock × LockStore :=
  let locks :=
    (s.filter (fun kv => hasPrefixStr kv.1 repoFullName && kv.2.pull.num == pullNum)).map
      (fun kv => kv.2)
  (locks, locks.foldl (fun st l => (unlock st l.project l.workspace).2) s)

/-- Keys of the bucket are pairwise distinct (a BoltDB bucket is a map). -/
def keysNodup (s : LockStore) : Prop :=
  (s.map Prod.fst).Nodup

/-- Every stored lock sits at the key computed from its own project and
workspace; TryLock establishes this and it is what UnlockByPull relies on
when it deletes by recomputed key. -/
def keysConsistent (s : LockStore) : Prop :=
  ∀ kv ∈ s, kv.1 = lockKey kv.2.project kv.2.workspace

/-- Well-formedness of the locks bucket. -/
def WellFormedStore (s : LockStore) : Prop :=
  keysNodup s ∧ keysConsistent s

instance (s : LockStore) : Decidable (keysNodup s) := by
  unfold keysNodup; infer_instance

instance (s : LockStore) : Decidable (keysConsistent s) := by
  unfold keysConsistent; infer_instance

instance (s : LockStore) : Decidable (WellFormedStore s) := by
  unfold WellFormedStore; infer_instance

/- ===== Results (server/events/project_result.go, command results) ===== -/

/-- events.PlanSuccess, restricted to the fields the claims touch. -/
structure PlanSuccess where
  terraformOutput : String
  lockURL : String
  deriving DecidableEq

/-- events.ProjectResult.  A Go nil error is `none`; the zero value (all
fields empty) is `emptyProjectResult` and marks, in PreExecuteResult, that
the pre-executor produced no result and execution proceeds. -/
structure ProjectResult where
  path : String := ""
  error : Option String := none
  failure : String := ""
  planSuccess : Option PlanSuccess := none
  applySuccess : String := ""
  deriving DecidableEq

/-- The Go zero value events.ProjectResult\x7b\x7d. -/
def emptyProjectResult : ProjectResult := {}

/-- The command-level result: a fatal Error, a user-facing Failure, or a
list of per-project results (events.CommandResponse, later renamed
CommandResult). -/
structure CommandResult where
  error : Option String := none
  failure : String := ""
  projectResults : List ProjectResult := []
  deriving DecidableEq

/-- The commit status states posted to the VCS host. -/
inductive CommitStatus where
  | pending
  | success
  | failed
  deriving DecidableEq

/-- ProjectResult.Status: Failed when the project carries an Error or a
non-empty Failure, Success otherwise. -/
def projectResultStatus (p : ProjectResult) : CommitStatus :=
  if p.error.isSome then .failed
  else if p.failure != "" then .failed
  else .success

/-- DefaultCommitStatusUpdater.worstStatus: scan the statuses and return
Failed on the first Failed, Success when none is Failed. -/
def worstStatus : List CommitStatus → CommitStatus
  | [] => .success
  | st :: rest => if st == .failed then .failed else worstStatus rest

/-- DefaultCommitStatusUpdater.UpdateProjectResult, the status it posts:
Failed when the top-level Error or Failure is set, else the worst status
over the per-project results. -/
def updateProjectResultStatus (res : CommandResult) : CommitStatus :=
  if res.error.isSome || res.failure != "" then .failed
  else worstStatus (res.projectResults.map projectResultStatus)

/- ===== Project pre-executor and apply executor ===== -/

/-- events.PreExecuteResult as consumed by ApplyExecutor.apply: execution
proceeds exactly when projectResult is the zero value. -/
structure PreExecuteResult where
  projectResult : ProjectResult := {}
  deriving DecidableEq

/-- The Failure text returned when the lock is held by another pull
request (the code renders the holding pull request and a link; the claims
only need that a non-empty Failure is produced). -/
def lockHeldFailure : String :=
  "This project is currently locked by another pull request."

/-- Modelled from the spec: DefaultProjectPreExecutor.Execute is not under
src/ (only its callers and mocks are).  Spec 4.F with design note 9: try
the lock; if it is not acquired and the current holder is a different pull
request, return a Failure; a failure of the init step after the lock was
acquired releases the lock before returning; otherwise proceed with the
store left by TryLock.  initOk is the outcome of the tool init step. -/
def projectPreExecute (s : LockStore) (newLock : ProjectLock) (initOk : Bool) :
    PreExecuteResult × LockStore :=
  let r := tryLock s newLock
  if !r.acquired && r.currLock.pull.num != newLock.pull.num then
    ({ projectResult := { failure := lockHeldFailure } }, s)
  else if !initOk then
    ({ projectResult := { error := some "running init" } },
      if r.acquired then (unlock r.store newLock.project newLock.workspace).2 else r.store)
  else
    ({}, r.store)

/-- ApplyExecutor.apply for one plan: pre-execute, run terraform apply
(its outcome is tfResult; the webhook notification it triggers does not
touch the lock store), on terraform failure record an Error, otherwise run
the configured post_apply hooks (postApplyOk is their outcome) and record
ApplySuccess.  No branch of the function touches the lock service: the
ApplyExecutor struct has no Locker field. -/
def applyProject (s : LockStore) (newLock : ProjectLock) (initOk : Bool)
    (tfResult : Except String String) (postApplyHooks : List String)
    (postApplyOk : Bool) : ProjectResult × LockStore :=
  let pre := projectPreExecute s newLock initOk
  if pre.1.projectResult != emptyProjectResult then
    (pre.1.projectResult, pre.2)
  else
    match tfResult with
    | .error e => ({ error := some e }, pre.2)
    | .ok output =>
      if postApplyHooks.length > 0 && !postApplyOk then
        ({ error := some "running post apply commands" }, pre.2)
      else
        ({ applySuccess := output }, pre.2)

/- ===== Apply plan collection (ApplyExecutor.Execute) ===== -/

/-- One entry visited by filepath.Walk over the workspace tree: its full
path, its base name, and whether it is a directory. -/
structure FileEntry where
  path : String
  name : String
  isDir : Bool
  deriving DecidableEq

/-- models.Plan: the project the plan is for and the absolute path of the
plan file. -/
structure Plan where
  projectPath : String
  localPath : String
  deriving DecidableEq

/-- filepath.Join of two already-clean segments. -/
def joinPath (a b : String) : String :=
  a ++ "/" ++ b

/-- filepath.Dir on a clean path: everything before the final separator,
or "." when there is none (computed on the character list). -/
def dirOf (p : String) : String :=
  if p.data.contains '/' then
    String.mk (((p.data.reverse.dropWhile (fun c => c != '/')).drop 1).reverse)
  else "."

/-- filepath.Rel for the shapes the executor produces: the path relative
to base, assuming p equals base or lives under it. -/
def relTo (base p : String) : String :=
  if p == base then "."
  else if hasPrefixStr p (base ++ "/") then String.mk (p.data.drop (base.data.length + 1))
  else p

/-- The plan-artifact collection step of ApplyExecutor.Execute.  With no
directory flag, walk the workspace tree and keep every non-directory
entry named workspace.tfplan; with a directory flag, look only at
repoDir/dir/workspace.tfplan and fail with an Error naming the path when
no such file exists (a missing file and a directory of that name both
fail the stat check). -/
def collectPlans (repoDir dir ws : String) (files : List FileEntry) :
    Except String (List Plan) :=
  if dir == "" then
    .ok ((files.filter (fun f => !f.isDir && f.name == ws ++ ".tfplan")).map
      (fun f => { projectPath := relTo repoDir (dirOf f.path), localPath := f.path }))
  else
    match files.find?
        (fun f => f.path == joinPath (joinPath repoDir dir) (ws ++ ".tfplan") && !f.isDir) with
    | some _ =>
      .ok [{ projectPath :=
               relTo repoDir (dirOf (joinPath (joinPath repoDir dir) (ws ++ ".tfplan"))),
             localPath := joinPath (joinPath repoDir dir) (ws ++ ".tfplan") }]
    | none =>
      .error ("no plan found at path \"" ++ dir ++ "\" and workspace \"" ++ ws ++
        "\"–did you run plan?")

/-- ApplyExecutor.Execute after the approval gate: look up the workspace,
collect the plans, fail on an empty collection, otherwise run the
per-plan applies.  workspaceDir is the answer of GetWorkspace. -/
def applyExecuteAfterApproval (workspaceDir : Option String) (dir ws : String)
    (files : List FileEntry) (applyFn : Plan → ProjectResult) : CommandResult :=
  match workspaceDir with
  | none => { failure := "No workspace found. Did you run plan?" }
  | some repoDir =>
    match collectPlans repoDir dir ws files with
    | .error e => { error := some e }
    | .ok plans =>
      if plans.length == 0 then { failure := "No plans found for that workspace." }
      else { projectResults := plans.map (fun p => { applyFn p with path := p.localPath }) }

/-- ApplyExecutor.Execute up to and including plan collection; the
per-plan apply runs are abstracted by applyFn (each result gets its Path
set to the local path of its plan).  approvalOutcome is the answer of
VCSClient.PullIsApproved. -/
def applyExecute (requireApproval : Bool) (approvalOutcome : Except String Bool)
    (workspaceDir : Option String) (dir ws : String) (files : List FileEntry)
    (applyFn : Plan → ProjectResult) : CommandResult :=
  if requireApproval then
    match approvalOutcome with
    | .error e => { error := some ("checking if pull request was approved: " ++ e) }
    | .ok approved =>
      if !approved then { failure := "Pull request must be approved before running apply." }
      else applyExecuteAfterApproval workspaceDir dir ws files applyFn
  else applyExecuteAfterApproval workspaceDir dir ws files applyFn

/- ===== Plan command construction (runtime/plan_step_runner.go) ===== -/

/-- Go fmt %q on a string value.  (%q additionally escapes quotes and
non-printable characters; none occur in the values the claims use.) -/
def goQuote (s : String) : String :=
  "\"" ++ s ++ "\""

/-- Modelled from the spec: runtime.GetPlanFilename is not under src/;
the plan artifact of a workspace is named workspace.tfplan. -/
def getPlanFilename (ws : String) : String :=
  ws ++ ".tfplan"

/-- PlanStepRunner.tfVars: the -var pairs identifying the user and repo,
omitted entirely for terraform 0.12 and up. -/
def tfVars (username repoFullName repoName repoOwner : String) (pullNum : Int)
    (isV12OrAbove : Bool) : List String :=
  if isV12OrAbove then []
  else
    ["-var", "atlantis_user=" ++ goQuote username,
     "-var", "atlantis_repo=" ++ goQuote repoFullName,
     "-var", "atlantis_repo_name=" ++ goQuote repoName,
     "-var", "atlantis_repo_owner=" ++ goQuote repoOwner,
     "-var", "atlantis_pull_num=" ++ toString pullNum]

/-- PlanStepRunner.buildPlanCmd: the fixed plan arguments, then the -var
pairs, then the config extra arguments, then the comment arguments, and
last the -var-file arguments when path/env/workspace.tfvars exists
(envFileExists is the outcome of the os.Stat check). -/
def buildPlanCmd (path ws : String) (username repoFullName repoName repoOwner : String)
    (pullNum : Int) (isV12OrAbove : Bool) (extraArgs commentArgs : List String)
    (envFileExists : Bool) : List String :=
  let planFile := joinPath path (getPlanFilename ws)
  let envFile := joinPath (joinPath path "env") (ws ++ ".tfvars")
  let envFileArgs := if envFileExists then ["-var-file", envFile] else []
  ["plan", "-input=false", "-refresh", "-no-color", "-out", goQuote planFile]
    ++ tfVars username repoFullName repoName repoOwner pullNum isV12OrAbove
    ++ extraArgs ++ commentArgs ++ envFileArgs

/- ===== Lock admin HTTP surface (LocksController.DeleteLock) ===== -/

/-- The numeric value of one hex digit, as in Go net/url unhex, written
over the character code: 48-57 are the decimal digits, 97-102 and 65-70
the lower and upper hex letters. -/
def hexDigitValue (c : Char) : Option Nat :=
  let n := c.toNat
  if 48 ≤ n ∧ n ≤ 57 then some (n - 48)
  else if 97 ≤ n ∧ n ≤ 102 then some (n - 87)
  else if 65 ≤ n ∧ n ≤ 70 then some (n - 55)
  else none

/-- Percent-decoding of a character list as in Go net/url PathUnescape: a
percent sign must be followed by two hex digits; a malformed escape is
reported with the offending span. -/
def percentDecode : List Char → Except String (List Char)
  | [] => .ok []
  | c :: rest =>
    if c == '%' then
      match rest with
      | c1 :: c2 :: rest2 =>
        match hexDigitValue c1, hexDigitValue c2 with
        | some h1, some h2 =>
          (percentDecode rest2).map (fun t => Char.ofNat (16 * h1 + h2) :: t)
        | _, _ => .error ("invalid URL escape " ++ goQuote (String.mk [c, c1, c2]))
      | _ => .error ("invalid URL escape " ++ goQuote (String.mk (c :: rest)))
    else
      (percentDecode rest).map (fun t => c :: t)

/-- url.PathUnescape. -/
def pathUnescape (s : String) : Except String String :=
  (percentDecode s.data).map String.mk

/-- An HTTP response as produced by LocksController.respond: the status
code and the body written by Fprintln (the formatted message followed by
a newline). -/
structure HttpResponse where
  code : Nat
  body : String
  deriving DecidableEq

/-- LocksController.respond. -/
def respond (code : Nat) (msg : String) : HttpResponse :=
  ⟨code, msg ++ "\n"⟩

/-- The comment posted on the originating pull request after a successful
delete through the UI. -/
def deletedLockComment (lock : ProjectLock) : String :=
  "**Warning**: The plan for dir: `" ++ lock.project.path ++ "` workspace: `" ++
    lock.workspace ++ "` was **discarded** via the Atlantis UI.\n\n" ++
    "To `apply` this plan you must run `plan` again."

/-- The observable outcome of LocksController.DeleteLock: the HTTP
response and the comment request sent to the VCS client (base repo, pull
number, text), if any.  (The handler also deletes the plan workspace and
records a discarded status in the same BaseRepo branch; those effects go
to collaborators the claims do not mention.) -/
structure DeleteLockEffects where
  response : HttpResponse
  comment : Option (Repo × Int × String) := none
  deriving DecidableEq

/-- LocksController.DeleteLock.  idParam is the id route variable (none
when absent); deleteOutcome is the answer of DeleteLockCommand.DeleteLock
on the unescaped id: an error, no matching lock, or the deleted lock. -/
def deleteLockHandler (idParam : Option String)
    (deleteOutcome : String → Except String (Option ProjectLock)) : DeleteLockEffects :=
  match idParam with
  | none => { response := respond 400 "No lock id in request" }
  | some id =>
    if id == "" then { response := respond 400 "No lock id in request" }
    else
      match pathUnescape id with
      | .error e =>
        { response := respond 400 ("Invalid lock id " ++ goQuote id ++
            ". Failed with error: " ++ e) }
      | .ok idUnencoded =>
        match deleteOutcome idUnencoded with
        | .error err =>
          { response := respond 500 ("deleting lock failed with: " ++ err) }
        | .ok none =>
          { response := respond 404 ("No lock found at id " ++ goQuote idUnencoded) }
        | .ok (some lock) =>
          { response := respond 200 ("Deleted lock id " ++ goQuote id),
            comment :=
              if lock.pull.baseRepo != emptyRepo then
                some (lock.pull.baseRepo, lock.pull.num, deletedLockComment lock)
              else none }

/- ===== Concrete instances used by witnesses and counterexamples ===== -/

/-- A base repo value for locks that carry one. -/
def demoRepo : Repo := ⟨"owner/repo", "owner", "repo", "github.com"⟩

def c1Lock : ProjectLock :=
  ⟨⟨"owner/repo", "."⟩, "default", ⟨1, "https://example.com/pull/1", "alice", emptyRepo⟩,
    ⟨"alice"⟩, 3⟩

def c1Store : LockStore := [(lockKey c1Lock.project c1Lock.workspace, c1Lock)]

/-- A lock of repo owner/repo2: its key has the distinct repo name
owner/repo as a byte prefix. -/
def c2Lock : ProjectLock :=
  ⟨⟨"owner/repo2", "p"⟩, "w", ⟨1, "https://example.com/pull/1", "bob", emptyRepo⟩, ⟨"bob"⟩, 0⟩

def c2Store : LockStore := [(lockKey c2Lock.project c2Lock.workspace, c2Lock)]

def c2wLockA : ProjectLock :=
  ⟨⟨"owner/repo", "proj"⟩, "default", ⟨1, "https://example.com/pull/1", "alice", emptyRepo⟩,
    ⟨"alice"⟩, 1⟩

def c2wLockB : ProjectLock :=
  ⟨⟨"zzz/other", "q"⟩, "default", ⟨1, "https://example.com/pull/9", "carol", emptyRepo⟩,
    ⟨"carol"⟩, 2⟩

def c2wStore : LockStore :=
  [(lockKey c2wLockA.project c2wLockA.workspace, c2wLockA),
   (lockKey c2wLockB.project c2wLockB.workspace, c2wLockB)]

def c3Lock : ProjectLock :=
  ⟨⟨"owner/repo", "infra"⟩, "default", ⟨7, "https://example.com/pull/7", "dave", emptyRepo⟩,
    ⟨"dave"⟩, 4⟩

def c3Store : LockStore := [(lockKey c3Lock.project c3Lock.workspace, c3Lock)]

def c4Lock : ProjectLock :=
  ⟨⟨"owner/repo", "."⟩, "staging", ⟨2, "https://example.com/pull/2", "erin", emptyRepo⟩,
    ⟨"erin"⟩, 6⟩

/-- A workspace tree with one matching plan at the root and one unrelated
file in a subdirectory. -/
def c5Files : List FileEntry :=
  [⟨"root", "root", true⟩,
   ⟨"root/default.tfplan", "default.tfplan", false⟩,
   ⟨"root/a", "a", true⟩,
   ⟨"root/a/other.txt", "other.txt", false⟩]

def c5Apply : Plan → ProjectResult := fun _ => { applySuccess := "ok" }

/-- The plan command for workspace prod with the env file present, one
config extra argument and one comment argument. -/
def c6Cmd : List String :=
  buildPlanCmd "repo/proj" "prod" "alice" "owner/repo" "repo" "owner" 1 false
    ["-lock=false"] ["-target=x"] true

def c8Lock : ProjectLock :=
  ⟨⟨"owner/repo", "p8"⟩, "default", ⟨3, "https://example.com/pull/3", "fred", demoRepo⟩,
    ⟨"fred"⟩, 0⟩

def c9Lock : ProjectLock :=
  ⟨⟨"owner/repo", "p9"⟩, "default", ⟨4, "https://example.com/pull/4", "gail", demoRepo⟩,
    ⟨"gail"⟩, 0⟩

def c9LockNoRepo : ProjectLock :=
  ⟨⟨"owner/repo", "p9"⟩, "default", ⟨4, "https://example.com/pull/4", "gail", emptyRepo⟩,
    ⟨"gail"⟩, 0⟩

/-- The comment text asserted by the specification for an admin delete. -/
def claimedUnlockComment : String :=
  "The workspace has been unlocked via the Atlantis UI. To apply this plan you must run `plan` again."

def c10ProjA : Project := ⟨"owner/repo", "a/b"⟩

def c10ProjB : Project := ⟨"owner/repo", "a"⟩

def c10LockA : ProjectLock :=
  ⟨c10ProjA, "c", ⟨1, "https://example.com/pull/1", "alice", emptyRepo⟩, ⟨"alice"⟩, 0⟩

def c10LockB : ProjectLock :=
  ⟨c10ProjB, "b/c", ⟨2, "https://example.com/pull/2", "bob", emptyRepo⟩, ⟨"bob"⟩, 0⟩

/- ===== Store lemmas ===== -/

theorem bucketGet_put_self (s : LockStore) (k : String) (v : ProjectLock) :
    bucketGet (bucketPut s k v) k = some v := by
  induction s with
  | nil => simp [bucketPut, bucketGet]
  | cons kv rest ih =>
    by_cases h : kv.1 = k
    · simp [bucketPut, bucketGet, h]
    · simp [bucketPut, bucketGet, h, ih]

theorem bucketGet_put_ne (s : LockStore) (k : String) (v : ProjectLock)
    (k2 : String) (h : k2 ≠ k) :
    bucketGet (bucketPut s k v) k2 = bucketGet s k2 := by
  induction s with
  | nil => simp [bucketPut, bucketGet, Ne.symm h]
  | cons kv rest ih =>
    by_cases hk : kv.1 = k
    · simp [bucketPut, bucketGet, hk, Ne.symm h]
    · simp only [bucketPut, beq_iff_eq, hk, if_false, bucketGet]
      by_cases h2 : kv.1 = k2 <;> simp [h2, ih]

theorem bucketGet_delete_self (s : LockStore) (k : String) :
    bucketGet (bucketDelete s k) k = none := by
  induction s with
  | nil => simp [bucketDelete, bucketGet]
  | cons kv rest ih =>
    by_cases h : kv.1 = k
    · simpa [bucketDelete, List.filter_cons, h] using ih
    · simpa [bucketDelete, List.filter_cons, h, bucketGet] using ih

theorem bucketGet_delete_ne (s : LockStore) (k k2 : String) (h : k2 ≠ k) :
    bucketGet (bucketDelete s k) k2 = bucketGet s k2 := by
  induction s with
  | nil => simp [bucketDelete, bucketGet]
  | cons kv rest ih =>
    by_cases hk : kv.1 = k
    · simpa [bucketDelete, List.filter_cons, bucketGet, hk, Ne.symm h] using ih
    · by_cases h2 : kv.1 = k2
      · simp [bucketDelete, List.filter_cons, bucketGet, hk, h2, h]
      · simp only [bucketDelete] at ih
        simp [bucketDelete, List.filter_cons, bucketGet, hk, h2, ih]

theorem mem_keys_put (s : LockStore) (k : String) (v : ProjectLock) (k2 : String) :
    k2 ∈ (bucketPut s k v).map Prod.fst ↔ k2 = k ∨ k2 ∈ s.map Prod.fst := by
  induction s with
  | nil => simp [bucketPut]
  | cons kv rest ih =>
    by_cases h : kv.1 = k
    · subst h
      simp only [bucketPut, beq_self_eq_true, if_true, List.map_cons, List.mem_cons]
      tauto
    · simp only [bucketPut, beq_iff_eq, h, if_false, List.map_cons, List.mem_cons, ih]
      tauto

theorem keysNodup_put (s : LockStore) (k : String) (v : ProjectLock)
    (h : keysNodup s) : keysNodup (bucketPut s k v) := by
  induction s with
  | nil => simp [bucketPut, keysNodup]
  | cons kv rest ih =>
    rw [keysNodup, List.map_cons, List.nodup_cons] at h
    by_cases hk : kv.1 = k
    · subst hk
      rw [keysNodup, bucketPut]
      simp only [beq_self_eq_true, if_true, List.map_cons, List.nodup_cons]
      exact h
    · rw [keysNodup, bucketPut]
      simp only [beq_iff_eq, hk, if_false, List.map_cons, List.nodup_cons]
      refine ⟨fun hmem => ?_, ih h.2⟩
      rcases (mem_keys_put rest k v kv.1).1 hmem with h1 | h1
      · exact hk h1
      · exact h.1 h1

theorem mem_of_mem_put (s : LockStore) (k : String) (v : ProjectLock)
    (kv2 : String × ProjectLock) (h : kv2 ∈ bucketPut s k v) :
    kv2 = (k, v) ∨ kv2 ∈ s := by
  induction s with
  | nil => simpa [bucketPut] using h
  | cons kv rest ih =>
    by_cases hk : kv.1 = k
    · subst hk
      rw [bucketPut] at h
      simp only [beq_self_eq_true, if_true, List.mem_cons] at h
      rcases h with h | h
      · exact Or.inl h
      · exact Or.inr (List.mem_cons_of_mem _ h)
    · rw [bucketPut] at h
      simp only [beq_iff_eq, hk, if_false, List.mem_cons] at h
      rcases h with h | h
      · exact Or.inr (h ▸ List.mem_cons_self _ _)
      · rcases ih h with h1 | h1
        · exact Or.inl h1
        · exact Or.inr (List.mem_cons_of_mem _ h1)

theorem keysConsistent_put (s : LockStore) (v : ProjectLock)
    (h : keysConsistent s) :
    keysConsistent (bucketPut s (lockKey v.project v.workspace) v) := by
  intro kv2 hmem
  rcases mem_of_mem_put _ _ _ _ hmem with h1 | h1
  · subst h1; rfl
  · exact h kv2 h1

theorem keysNodup_delete (s : LockStore) (k : String) (h : keysNodup s) :
    keysNodup (bucketDelete s k) := by
  exact ((List.filter_sublist s).map Prod.fst).nodup h

theorem keysConsistent_delete (s : LockStore) (k : String) (h : keysConsistent s) :
    keysConsistent (bucketDelete s k) := by
  intro kv hkv
  exact h kv (List.mem_of_mem_filter hkv)

theorem wellFormed_tryLock (s : LockStore) (l : ProjectLock)
    (hs : WellFormedStore s) : WellFormedStore (tryLock s l).store := by
  rw [tryLock]
  cases hget : bucketGet s (lockKey l.project l.workspace) with
  | none =>
    exact ⟨keysNodup_put s _ l hs.1, keysConsistent_put s l hs.2⟩
  | some c => exact hs

theorem wellFormed_unlock (s : LockStore) (p : Project) (w : String)
    (hs : WellFormedStore s) : WellFormedStore (unlock s p w).2 :=
  ⟨keysNodup_delete s _ hs.1, keysConsistent_delete s _ hs.2⟩

theorem keysNodup_eq_of_mem (s : LockStore) (h : keysNodup s)
    (kv1 kv2 : String × ProjectLock) (h1 : kv1 ∈ s) (h2 : kv2 ∈ s)
    (hk : kv1.1 = kv2.1) : kv1 = kv2 := by
  induction s with
  | nil => cases h1
  | cons a rest ih =>
    rw [keysNodup, List.map_cons, List.nodup_cons] at h
    rcases List.mem_cons.1 h1 with h1 | h1 <;> rcases List.mem_cons.1 h2 with h2 | h2
    · rw [h1, h2]
    · refine absurd ?_ h.1
      rw [← h1, hk]
      exact List.mem_map_of_mem Prod.fst h2
    · refine absurd ?_ h.1
      rw [← h2, ← hk]
      exact List.mem_map_of_mem Prod.fst h1
    · exact ih h.2 h1 h2

theorem foldl_unlock_eq_filter (L : List ProjectLock) (s : LockStore) :
    L.foldl (fun st l => (unlock st l.project l.workspace).2) s
      = s.filter (fun kv => !(L.any (fun l => kv.1 == lockKey l.project l.workspace))) := by
  induction L generalizing s with
  | nil => simp
  | cons l L ih =>
    rw [List.foldl_cons, ih]
    show (bucketDelete s (lockKey l.project l.workspace)).filter _ = _
    rw [bucketDelete, List.filter_filter]
    refine List.filter_congr ?_
    intro kv _
    simp only [List.any_cons, Bool.not_or, bne]
    rw [Bool.and_comm]

theorem unlockByPull_removed_def (s : LockStore) (repoFullName : String) (pullNum : Int) :
    (unlockByPull s repoFullName pullNum).1
      = (s.filter (fun kv => hasPrefixStr kv.1 repoFullName && kv.2.pull.num == pullNum)).map
          (fun kv => kv.2) := rfl

theorem unlockByPull_store_eq (s : LockStore) (repoFullName : String) (pullNum : Int)
    (hs : WellFormedStore s) :
    (unlockByPull s repoFullName pullNum).2
      = s.filter
          (fun kv => !(hasPrefixStr kv.1 repoFullName && kv.2.pull.num == pullNum)) := by
  show (((s.filter _).map _).foldl _ s) = _
  rw [foldl_unlock_eq_filter]
  refine List.filter_congr ?_
  intro kv hkv
  congr 1
  by_cases hp : (hasPrefixStr kv.1 repoFullName && kv.2.pull.num == pullNum) = true
  · rw [hp]
    rw [List.any_eq_true]
    refine ⟨kv.2, List.mem_map_of_mem _ (List.mem_filter.2 ⟨hkv, hp⟩), ?_⟩
    rw [beq_iff_eq]
    exact hs.2 kv hkv
  · rw [Bool.not_eq_true] at hp
    rw [hp]
    rw [← Bool.not_eq_true, List.any_eq_true]
    rintro ⟨l, hl, hkey⟩
    rcases List.mem_map.1 hl with ⟨kv2, hkv2, rfl⟩
    have hkv2mem := List.mem_filter.1 hkv2
    have hkeys : kv.1 = kv2.1 := by
      rw [beq_iff_eq] at hkey
      rw [hkey, hs.2 kv2 hkv2mem.1]
    have : kv = kv2 := keysNodup_eq_of_mem s hs.1 kv kv2 hkv hkv2mem.1 hkeys
    rw [this] at hp
    rw [hkv2mem.2] at hp
    cases hp

theorem wellFormed_unlockByPull (s : LockStore) (repoFullName : String) (pullNum : Int)
    (hs : WellFormedStore s) : WellFormedStore (unlockByPull s repoFullName pullNum).2 := by
  rw [unlockByPull_store_eq s repoFullName pullNum hs]
  exact ⟨((List.filter_sublist s).map Prod.fst).nodup hs.1,
    fun kv hkv => hs.2 kv (List.mem_of_mem_filter hkv)⟩

theorem length_filter_key_le_one (s : LockStore) :
    WellFormedStore s → ∀ (p : Project) (w : String),
      (s.filter (fun kv => kv.2.project == p && kv.2.workspace == w)).length ≤ 1 := by
  induction s with
  | nil => intro _ p w; simp
  | cons kv rest ih =>
    intro hs p w
    have hnd := hs.1
    rw [keysNodup, List.map_cons, List.nodup_cons] at hnd
    have hrest : WellFormedStore rest :=
      ⟨hnd.2, fun x hx => hs.2 x (List.mem_cons_of_mem _ hx)⟩
    by_cases hp : (kv.2.project == p && kv.2.workspace == w) = true
    · have hnil : rest.filter (fun kv2 => kv2.2.project == p && kv2.2.workspace == w) = [] := by
        rw [List.filter_eq_nil_iff]
        intro kv2 hkv2 hp2
        simp only [Bool.and_eq_true, beq_iff_eq] at hp hp2
        have hk2 : kv2.1 = kv.1 := by
          rw [hs.2 kv2 (List.mem_cons_of_mem _ hkv2), hs.2 kv (List.mem_cons_self _ _),
            lockKey, lockKey, hp.1, hp.2, hp2.1, hp2.2]
        exact hnd.1 (hk2 ▸ List.mem_map_of_mem Prod.fst hkv2)
      simp [List.filter_cons, hp, hnil]
    · rw [Bool.not_eq_true] at hp
      have := ih hrest p w
      simpa [List.filter_cons, hp] using this

/- ===== Claim theorems ===== -/

/-- C4: TryLock is an atomic check-and-put.  For every store state, if no
lock is stored at the key of the new lock then TryLock stores the new
lock there (leaving every other key unchanged) and returns acquired with
the new lock as holder; if a lock c is already stored at that key then
TryLock returns not-acquired with holder c and the store is unchanged. -/
theorem C4_tryLock_atomic_check_and_put (s : LockStore) (newLock : ProjectLock) :
    (bucketGet s (lockKey newLock.project newLock.workspace) = none →
      (tryLock s newLock).acquired = true ∧
      (tryLock s newLock).currLock = newLock ∧
      getLock (tryLock s newLock).store newLock.project newLock.workspace = some newLock ∧
      ∀ k, k ≠ lockKey newLock.project newLock.workspace →
        bucketGet (tryLock s newLock).store k = bucketGet s k) ∧
    (∀ c, bucketGet s (lockKey newLock.project newLock.workspace) = some c →
      (tryLock s newLock).acquired = false ∧
      (tryLock s newLock).currLock = c ∧
      (tryLock s newLock).store = s) := by
  constructor
  · intro h
    simp only [tryLock, getLock, h]
    refine ⟨trivial, trivial, ?_, ?_⟩
    · exact bucketGet_put_self s _ newLock
    · intro k hk
      exact bucketGet_put_ne s _ newLock k hk
  · intro c h
    simp only [tryLock, h]
    exact ⟨trivial, trivial, trivial⟩

/-- Witness for C4 on the empty store and a concrete lock. -/
theorem C4_witness :
    (tryLock [] c4Lock).acquired = true ∧
    getLock (tryLock [] c4Lock).store c4Lock.project c4Lock.workspace = some c4Lock := by
  have h := (C4_tryLock_atomic_check_and_put [] c4Lock).1 rfl
  exact ⟨h.1, h.2.2.1⟩

/-- C10: the lock key joins repo full name, project path and workspace
with "/" and no escaping, so the two distinct pairs (path a/b, workspace
c) and (path a, workspace b/c) in the same repo collide on the same key,
and while the first is locked, TryLock for the second returns
not-acquired with the first lock as holder even though it names a
different project. -/
theorem C10_lock_key_collision :
    lockKey c10ProjA "c" = lockKey c10ProjB "b/c" ∧
    (c10ProjA, "c") ≠ (c10ProjB, "b/c") ∧
    (tryLock [(lockKey c10ProjA "c", c10LockA)] c10LockB).acquired = false ∧
    (tryLock [(lockKey c10ProjA "c", c10LockA)] c10LockB).currLock = c10LockA ∧
    c10LockB.project ≠ c10LockA.project := by
  refine ⟨rfl, by decide, rfl, rfl, by decide⟩

/-- C3: in a well-formed store at most one lock exists per (project,
workspace) pair, and well-formedness (hence the bound) is preserved by
TryLock, Unlock and UnlockByPull. -/
theorem C3_at_most_one_lock_per_key (s : LockStore) (hs : WellFormedStore s) :
    (∀ (p : Project) (w : String),
      (s.filter (fun kv => kv.2.project == p && kv.2.workspace == w)).length ≤ 1) ∧
    (∀ l : ProjectLock, WellFormedStore (tryLock s l).store) ∧
    (∀ (p : Project) (w : String), WellFormedStore (unlock s p w).2) ∧
    (∀ (r : String) (n : Int), WellFormedStore (unlockByPull s r n).2) ∧
    (∀ (l : ProjectLock) (p : Project) (w : String),
      (((tryLock s l).store).filter
        (fun kv => kv.2.project == p && kv.2.workspace == w)).length ≤ 1) ∧
    (∀ (p0 w0 : _) (p : Project) (w : String),
      (((unlock s p0 w0).2).filter
        (fun kv => kv.2.project == p && kv.2.workspace == w)).length ≤ 1) ∧
    (∀ (r : String) (n : Int) (p : Project) (w : String),
      (((unlockByPull s r n).2).filter
        (fun kv => kv.2.project == p && kv.2.workspace == w)).length ≤ 1) := by
  refine ⟨length_filter_key_le_one s hs, fun l => wellFormed_tryLock s l hs,
    fun p w => wellFormed_unlock s p w hs, fun r n => wellFormed_unlockByPull s r n hs,
    ?_, ?_, ?_⟩
  · intro l p w
    exact length_filter_key_le_one _ (wellFormed_tryLock s l hs) p w
  · intro p0 w0 p w
    exact length_filter_key_le_one _ (wellFormed_unlock s p0 w0 hs) p w
  · intro r n p w
    exact length_filter_key_le_one _ (wellFormed_unlockByPull s r n hs) p w

/-- Witness for C3 on a concrete one-lock store. -/
theorem C3_witness :
    WellFormedStore c3Store ∧
    (c3Store.filter
      (fun kv => kv.2.project == c3Lock.project && kv.2.workspace == "default")).length ≤ 1 :=
  ⟨by decide, (C3_at_most_one_lock_per_key c3Store (by decide)).1 c3Lock.project "default"⟩

theorem hasPrefixStr_append (a b : String) : hasPrefixStr (a ++ b) a = true := by
  rw [hasPrefixStr, String.data_append, List.isPrefixOf_iff_prefix]
  exact List.prefix_append _ _

theorem hasPrefixStr_lockKey (p : Project) (w : String) :
    hasPrefixStr (lockKey p w) p.repoFullName = true := by
  rw [lockKey]
  simp only [String.append_assoc]
  exact hasPrefixStr_append _ _

/-- C2 counterexample: the store holds one lock of repo owner/repo2 for
pull number 1; UnlockByPull for repo owner/repo and pull 1 removes it
(the key of owner/repo2 has owner/repo as a byte prefix), so a lock
belonging to a different repo is not left unchanged. -/
theorem C2_counterexample :
    c2Lock.project.repoFullName ≠ "owner/repo" ∧
    c2Store = [(lockKey c2Lock.project c2Lock.workspace, c2Lock)] ∧
    (unlockByPull c2Store "owner/repo" 1).1 = [c2Lock] ∧
    (unlockByPull c2Store "owner/repo" 1).2 = [] := by
  refine ⟨by decide, rfl, by decide, by decide⟩

/-- C2 amended: on a well-formed store, UnlockByPull(R, N) removes
exactly the stored locks whose key has R as a byte prefix and whose pull
number is N; the returned slice equals that removed set; afterwards no
lock of repo R with pull number N remains; and every stored lock whose
key does not have R as a prefix, or whose pull number differs, is
unchanged.  (Locks of a distinct repo whose full name extends R are also
removed, as the counterexample shows.) -/
theorem C2_unlockByPull_prefix_scan (s : LockStore) (repoFullName : String)
    (pullNum : Int) (hs : WellFormedStore s) :
    (unlockByPull s repoFullName pullNum).1
      = (s.filter (fun kv => hasPrefixStr kv.1 repoFullName && kv.2.pull.num == pullNum)).map
          (fun kv => kv.2) ∧
    (unlockByPull s repoFullName pullNum).2
      = s.filter
          (fun kv => !(hasPrefixStr kv.1 repoFullName && kv.2.pull.num == pullNum)) ∧
    (∀ kv ∈ s, kv.2.project.repoFullName = repoFullName → kv.2.pull.num = pullNum →
      kv ∉ (unlockByPull s repoFullName pullNum).2) ∧
    (∀ kv ∈ s,
      hasPrefixStr kv.1 repoFullName = false ∨ kv.2.pull.num ≠ pullNum →
      kv ∈ (unlockByPull s repoFullName pullNum).2) := by
  have hstore := unlockByPull_store_eq s repoFullName pullNum hs
  refine ⟨unlockByPull_removed_def s repoFullName pullNum, hstore, ?_, ?_⟩
  · intro kv hkv hrepo hnum hmem
    rw [hstore] at hmem
    have hpred := (List.mem_filter.1 hmem).2
    rw [Bool.not_eq_eq_eq_not, Bool.not_true, Bool.and_eq_false_iff] at hpred
    rcases hpred with hpred | hpred
    · rw [hs.2 kv hkv, ← hrepo, hasPrefixStr_lockKey] at hpred
      cases hpred
    · rw [beq_eq_false_iff_ne] at hpred
      exact hpred hnum
  · intro kv hkv hside
    rw [hstore]
    refine List.mem_filter.2 ⟨hkv, ?_⟩
    rw [Bool.not_eq_eq_eq_not, Bool.not_true, Bool.and_eq_false_iff]
    rcases hside with hside | hside
    · exact Or.inl hside
    · exact Or.inr (beq_eq_false_iff_ne.2 hside)

/-- Witness for C2 on a concrete two-lock store: the matching lock is
returned and removed, the unrelated lock stays. -/
theorem C2_witness :
    WellFormedStore c2wStore ∧
    (unlockByPull c2wStore "owner/repo" 1).1 = [c2wLockA] ∧
    (unlockByPull c2wStore "owner/repo" 1).2
      = [(lockKey c2wLockB.project c2wLockB.workspace, c2wLockB)] := by
  have h := C2_unlockByPull_prefix_scan c2wStore "owner/repo" 1 (by decide)
  refine ⟨by decide, ?_, ?_⟩
  · rw [h.1]; decide
  · rw [h.2.1]; decide

/-- C1 counterexample: the pull request holds the lock, terraform apply
succeeds and the project result records ApplySuccess, yet the lock for
that project and workspace is still stored after the run: the apply
executor never calls Unlock (it has no reference to the lock service). -/
theorem C1_counterexample :
    (applyProject c1Store c1Lock true (.ok "applied") [] true).1.applySuccess = "applied" ∧
    (applyProject c1Store c1Lock true (.ok "applied") [] true).1.error = none ∧
    getLock (applyProject c1Store c1Lock true (.ok "applied") [] true).2
      c1Lock.project c1Lock.workspace = some c1Lock := by
  refine ⟨by decide, by decide, by decide⟩

/-- C1 amended: a successful apply releases no lock.  When the lock for
(project, workspace) is already held by the same pull request, terraform
apply succeeds and the post_apply hooks succeed, the run records
ApplySuccess and leaves the lock store exactly as it was, the held lock
included; the lock is removed only by admin delete or pull-request
close. -/
theorem C1_apply_success_keeps_lock (s : LockStore) (newLock heldLock : ProjectLock)
    (output : String) (hooks : List String)
    (hheld : bucketGet s (lockKey newLock.project newLock.workspace) = some heldLock)
    (hsame : heldLock.pull.num = newLock.pull.num) :
    (applyProject s newLock true (.ok output) hooks true).1 = { applySuccess := output } ∧
    (applyProject s newLock true (.ok output) hooks true).2 = s ∧
    getLock (applyProject s newLock true (.ok output) hooks true).2
      newLock.project newLock.workspace = some heldLock := by
  have htl : tryLock s newLock = ⟨false, heldLock, s⟩ := by
    rw [tryLock, hheld]
  have hpre : projectPreExecute s newLock true = ({}, s) := by
    rw [projectPreExecute, htl]
    simp [hsame]
  have happ : applyProject s newLock true (.ok output) hooks true
      = ({ applySuccess := output }, s) := by
    rw [applyProject, hpre]
    simp [emptyProjectResult]
  rw [happ]
  exact ⟨rfl, rfl, hheld⟩

/-- Witness for C1 on a concrete held lock. -/
theorem C1_witness :
    (applyProject c1Store c1Lock true (.ok "out") ["hook"] true).1
      = { applySuccess := "out" } ∧
    (applyProject c1Store c1Lock true (.ok "out") ["hook"] true).2 = c1Store ∧
    getLock (applyProject c1Store c1Lock true (.ok "out") ["hook"] true).2
      c1Lock.project c1Lock.workspace = some c1Lock :=
  C1_apply_success_keeps_lock c1Store c1Lock c1Lock "out" ["hook"] (by decide) rfl

/-- C5: with no directory flag the apply executor collects exactly the
non-directory files of the workspace tree named workspace.tfplan; with a
directory flag it looks only at repoDir/dir/workspace.tfplan and returns
an Error naming the path when absent; an empty collection yields the
Failure text, not an Error. -/
theorem C5_apply_plan_collection (repoDir dir ws : String) (files : List FileEntry)
    (applyFn : Plan → ProjectResult) :
    (dir = "" →
      ∀ plans, collectPlans repoDir dir ws files = .ok plans →
        ∀ path : String,
          ((∃ pl ∈ plans, pl.localPath = path) ↔
            (∃ f ∈ files, f.isDir = false ∧ f.name = ws ++ ".tfplan" ∧ f.path = path))) ∧
    (dir ≠ "" →
      ∀ f, files.find?
          (fun f => f.path == joinPath (joinPath repoDir dir) (ws ++ ".tfplan") && !f.isDir)
          = some f →
        collectPlans repoDir dir ws files
          = .ok [{ projectPath :=
                     relTo repoDir (dirOf (joinPath (joinPath repoDir dir) (ws ++ ".tfplan"))),
                   localPath := joinPath (joinPath repoDir dir) (ws ++ ".tfplan") }]) ∧
    (dir ≠ "" →
      files.find?
          (fun f => f.path == joinPath (joinPath repoDir dir) (ws ++ ".tfplan") && !f.isDir)
          = none →
      applyExecute false (.ok true) (some repoDir) dir ws files applyFn
        = { error := some ("no plan found at path \"" ++ dir ++ "\" and workspace \"" ++ ws ++
              "\"–did you run plan?") }) ∧
    (dir = "" →
      files.filter (fun f => !f.isDir && f.name == ws ++ ".tfplan") = [] →
      applyExecute false (.ok true) (some repoDir) dir ws files applyFn
        = { failure := "No plans found for that workspace." }) := by
  refine ⟨?_, ?_, ?_, ?_⟩
  · intro hdir plans hok path
    subst hdir
    have hplans : plans
        = (files.filter (fun f => !f.isDir && f.name == ws ++ ".tfplan")).map
            (fun f => { projectPath := relTo repoDir (dirOf f.path), localPath := f.path }) := by
      rw [collectPlans] at hok
      simp only [beq_self_eq_true, if_true, Except.ok.injEq] at hok
      exact hok.symm
    rw [hplans]
    constructor
    · rintro ⟨pl, hpl, hpath⟩
      rcases List.mem_map.1 hpl with ⟨f, hf, rfl⟩
      have hmem := List.mem_filter.1 hf
      have hcond := hmem.2
      simp only [Bool.and_eq_true, Bool.not_eq_eq_eq_not, Bool.not_true, beq_iff_eq] at hcond
      exact ⟨f, hmem.1, hcond.1, hcond.2, hpath⟩
    · rintro ⟨f, hf, hdir0, hname, hpath⟩
      refine ⟨{ projectPath := relTo repoDir (dirOf f.path), localPath := f.path }, ?_, hpath⟩
      refine List.mem_map_of_mem _ (List.mem_filter.2 ⟨hf, ?_⟩)
      simp [hdir0, hname]
  · intro hdir f hfind
    rw [collectPlans, if_neg (by simp [hdir]), hfind]
  · intro hdir hfind
    have hcp : collectPlans repoDir dir ws files
        = .error ("no plan found at path \"" ++ dir ++ "\" and workspace \"" ++ ws ++
            "\"–did you run plan?") := by
      rw [collectPlans, if_neg (by simp [hdir]), hfind]
    show applyExecuteAfterApproval (some repoDir) dir ws files applyFn = _
    rw [applyExecuteAfterApproval, hcp]
  · intro hdir hfilter
    subst hdir
    have hcp : collectPlans repoDir "" ws files = .ok [] := by
      rw [collectPlans]
      simp only [beq_self_eq_true, if_true, hfilter, List.map_nil]
    show applyExecuteAfterApproval (some repoDir) "" ws files applyFn = _
    rw [applyExecuteAfterApproval, hcp]
    rfl

/-- Witness for C5 on a concrete workspace tree with one matching plan. -/
theorem C5_witness :
    ((∃ pl ∈ [({ projectPath := ".", localPath := "root/default.tfplan" } : Plan)],
        pl.localPath = "root/default.tfplan") ↔
      (∃ f ∈ c5Files, f.isDir = false ∧ f.name = "default" ++ ".tfplan" ∧
        f.path = "root/default.tfplan")) ∧
    applyExecute false (.ok true) (some "root") "missing" "default" c5Files c5Apply
      = { error := some ("no plan found at path \"missing\" and workspace \"default\"" ++
          "–did you run plan?") } := by
  have h := C5_apply_plan_collection "root" "" "default" c5Files c5Apply
  have h2 := C5_apply_plan_collection "root" "missing" "default" c5Files c5Apply
  constructor
  · have := h.1 rfl
      [({ projectPath := ".", localPath := "root/default.tfplan" } : Plan)]
      (by decide) "root/default.tfplan"
    exact this
  · have := h2.2.2.1 (by decide) (by decide)
    simpa using this

/-- C6 counterexample: for workspace prod with the env file present, one
config extra argument and one comment argument, the produced command
neither contains the relative argument env/prod.tfvars (the code passes
the joined path) nor places -var-file before the extra arguments: the
-var-file pair is the last element of the list. -/
theorem C6_counterexample :
    "env/prod.tfvars" ∉ c6Cmd ∧
    c6Cmd.indexOf "-var-file" > c6Cmd.indexOf "-lock=false" ∧
    c6Cmd.indexOf "-var-file" > c6Cmd.indexOf "-target=x" := by
  refine ⟨by decide, by decide, by decide⟩

/-- C6 amended: when env/workspace.tfvars exists in the project
directory, the pair -var-file followed by the joined path of that file is
appended at the end of the plan argument list, after the config
extra-args and the comment extra-args. -/
theorem C6_envfile_appended_last (path ws username repoFullName repoName repoOwner : String)
    (pullNum : Int) (isV12OrAbove : Bool) (extraArgs commentArgs : List String) :
    buildPlanCmd path ws username repoFullName repoName repoOwner pullNum isV12OrAbove
        extraArgs commentArgs true
      = buildPlanCmd path ws username repoFullName repoName repoOwner pullNum isV12OrAbove
          extraArgs commentArgs false
        ++ ["-var-file", joinPath (joinPath path "env") (ws ++ ".tfvars")] := by
  simp [buildPlanCmd]

theorem projectResultStatus_failed_iff (p : ProjectResult) :
    projectResultStatus p = .failed ↔ (p.error.isSome ∨ p.failure ≠ "") := by
  rw [projectResultStatus]
  by_cases he : p.error.isSome <;> by_cases hf : p.failure ≠ "" <;>
    simp [he, hf, bne_iff_ne]

theorem worstStatus_failed_iff (ss : List CommitStatus) :
    worstStatus ss = .failed ↔ .failed ∈ ss := by
  induction ss with
  | nil => simp [worstStatus]
  | cons st rest ih =>
    by_cases h : st = .failed
    · simp [worstStatus, h]
    · have hb : (st == CommitStatus.failed) = false := by
        simpa using h
      simp [worstStatus, hb, ih, h]
      intro hh
      exact absurd hh.symm h

theorem worstStatus_failed_or_success (ss : List CommitStatus) :
    worstStatus ss = .failed ∨ worstStatus ss = .success := by
  induction ss with
  | nil => exact Or.inr rfl
  | cons st rest ih =>
    by_cases h : st = .failed
    · simp [worstStatus, h]
    · have hb : (st == CommitStatus.failed) = false := by simpa using h
      simpa [worstStatus, hb] using ih

/-- C7: the aggregate commit status is Failed exactly when the top-level
Error or Failure is set or some project result carries an Error or a
non-empty Failure; otherwise it is Success, and in particular a result
with no top-level error and zero project results yields Success. -/
theorem C7_aggregate_commit_status (res : CommandResult) :
    (updateProjectResultStatus res = .failed ↔
      (res.error.isSome ∨ res.failure ≠ "" ∨
        ∃ p ∈ res.projectResults, p.error.isSome ∨ p.failure ≠ "")) ∧
    (updateProjectResultStatus res = .failed ∨ updateProjectResultStatus res = .success) ∧
    (res.error = none → res.failure = "" → res.projectResults = [] →
      updateProjectResultStatus res = .success) := by
  by_cases htop : (res.error.isSome || res.failure != "") = true
  · have hcases : res.error.isSome ∨ res.failure ≠ "" := by
      simpa [bne_iff_ne] using htop
    rw [updateProjectResultStatus, if_pos htop]
    refine ⟨?_, Or.inl rfl, ?_⟩
    · simp [hcases]
      tauto
    · intro he hf _
      rcases hcases with hc | hc
      · rw [he] at hc; cases hc
      · exact absurd hf hc
  · have hcases : ¬ res.error.isSome ∧ ¬ res.failure ≠ "" := by
      constructor
      · intro hc; exact htop (by simp [hc])
      · intro hc; exact htop (by simp [bne_iff_ne, hc])
    rw [updateProjectResultStatus, if_neg htop]
    refine ⟨?_, ?_, ?_⟩
    · rw [worstStatus_failed_iff]
      constructor
      · intro hmem
        rcases List.mem_map.1 hmem with ⟨p, hp, hps⟩
        exact Or.inr (Or.inr ⟨p, hp, (projectResultStatus_failed_iff p).1 hps⟩)
      · intro hor
        rcases hor with hc | hc | ⟨p, hp, hps⟩
        · exact absurd hc hcases.1
        · exact absurd hc hcases.2
        · exact List.mem_map.2 ⟨p, hp, (projectResultStatus_failed_iff p).2 hps⟩
    · exact worstStatus_failed_or_success _
    · intro _ _ hres
      rw [hres]
      rfl

/-- Witness for C7 on the empty command result. -/
theorem C7_witness : updateProjectResultStatus {} = .success :=
  (C7_aggregate_commit_status {}).2.2 rfl rfl rfl

/-- The delete outcome used by the C8 witness: every id maps to a
successfully deleted lock. -/
def c8Outcome : String → Except String (Option ProjectLock) :=
  fun _ => .ok (some c8Lock)

/-- C8: the HTTP delete of a lock responds 400 when the id route
variable is missing, empty or not URL-decodable, 500 when the storage
layer errors, 404 with a body naming the decoded id when no lock
matches, and 200 with the body produced from "Deleted lock id %q" on the
id when the lock is deleted (respond terminates the body with a
newline). -/
theorem C8_delete_lock_http_contract (idParam : Option String)
    (deleteOutcome : String → Except String (Option ProjectLock)) :
    ((idParam = none ∨ idParam = some "") →
      (deleteLockHandler idParam deleteOutcome).response.code = 400) ∧
    (∀ id e, idParam = some id → id ≠ "" → pathUnescape id = .error e →
      (deleteLockHandler idParam deleteOutcome).response.code = 400) ∧
    (∀ id dec, idParam = some id → id ≠ "" → pathUnescape id = .ok dec →
      ∀ err, deleteOutcome dec = .error err →
        (deleteLockHandler idParam deleteOutcome).response.code = 500) ∧
    (∀ id dec, idParam = some id → id ≠ "" → pathUnescape id = .ok dec →
      deleteOutcome dec = .ok none →
        (deleteLockHandler idParam deleteOutcome).response
          = respond 404 ("No lock found at id " ++ goQuote dec)) ∧
    (∀ id dec lock, idParam = some id → id ≠ "" → pathUnescape id = .ok dec →
      deleteOutcome dec = .ok (some lock) →
        (deleteLockHandler idParam deleteOutcome).response
          = respond 200 ("Deleted lock id " ++ goQuote id)) := by
  refine ⟨?_, ?_, ?_, ?_, ?_⟩
  · intro h
    rcases h with h | h
    · rw [h]; rfl
    · rw [h, deleteLockHandler, if_pos (by decide)]; rfl
  · intro id e hid hne hdec
    rw [hid, deleteLockHandler, if_neg (by simp [hne])]
    simp only [hdec]
    rfl
  · intro id dec hid hne hdec err hout
    rw [hid, deleteLockHandler, if_neg (by simp [hne])]
    simp only [hdec, hout]
    rfl
  · intro id dec hid hne hdec hout
    rw [hid, deleteLockHandler, if_neg (by simp [hne])]
    simp only [hdec, hout]
  · intro id dec lock hid hne hdec hout
    rw [hid, deleteLockHandler, if_neg (by simp [hne])]
    simp only [hdec, hout]

/-- Witness for C8 on a concrete id and delete outcome. -/
theorem C8_witness :
    (deleteLockHandler (some "id") c8Outcome).response
      = respond 200 ("Deleted lock id " ++ goQuote "id") :=
  (C8_delete_lock_http_contract (some "id") c8Outcome).2.2.2.2 "id" "id" c8Lock rfl
    (by decide) (by decide) rfl

/-- C9 counterexample: after a successful admin delete of a lock whose
pull request carries a BaseRepo, the comment posted on the originating
pull request is the Warning text saying the plan was discarded via the
Atlantis UI, not the text asserted by the specification. -/
theorem C9_counterexample :
    (deleteLockHandler (some "key") (fun _ => .ok (some c9Lock))).comment
      = some (demoRepo, (4 : Int), deletedLockComment c9Lock) ∧
    deletedLockComment c9Lock ≠ claimedUnlockComment ∧
    (deleteLockHandler (some "key") (fun _ => .ok (some c9Lock))).response.code = 200 := by
  refine ⟨by decide, by decide, by decide⟩

/-- C9 amended: after a successful admin delete, when the stored pull
request carries a BaseRepo a comment is posted on the originating pull
request with the Warning text that the plan for the dir and workspace
was discarded via the Atlantis UI and that apply requires running plan
again; when BaseRepo is absent no comment is attempted; in both cases
the delete responds 200. -/
theorem C9_delete_lock_comment (id dec : String) (lock : ProjectLock)
    (deleteOutcome : String → Except String (Option ProjectLock))
    (hne : id ≠ "") (hdec : pathUnescape id = .ok dec)
    (hout : deleteOutcome dec = .ok (some lock)) :
    (lock.pull.baseRepo ≠ emptyRepo →
      (deleteLockHandler (some id) deleteOutcome).comment
        = some (lock.pull.baseRepo, lock.pull.num, deletedLockComment lock)) ∧
    (lock.pull.baseRepo = emptyRepo →
      (deleteLockHandler (some id) deleteOutcome).comment = none) ∧
    (deleteLockHandler (some id) deleteOutcome).response.code = 200 := by
  rw [deleteLockHandler, if_neg (by simp [hne])]
  simp only [hdec, hout]
  refine ⟨?_, ?_, rfl⟩
  · intro hrepo
    simp [hrepo]
  · intro hrepo
    simp [hrepo]

/-- Witness for C9 on a concrete lock carrying a BaseRepo. -/
theorem C9_witness :
    (deleteLockHandler (some "key2") (fun _ => .ok (some c9Lock))).comment
      = some (c9Lock.pull.baseRepo, c9Lock.pull.num, deletedLockComment c9Lock) ∧
    (deleteLockHandler (some "key2") (fun _ => .ok (some c9LockNoRepo))).comment = none := by
  constructor
  · exact (C9_delete_lock_comment "key2" "key2" c9Lock (fun _ => .ok (some c9Lock))
      (by decide) (by decide) rfl).1 (by decide)
  · exact (C9_delete_lock_comment "key2" "key2" c9LockNoRepo
      (fun _ => .ok (some c9LockNoRepo)) (by decide) (by decide) rfl).2.1 rfl
